import Mathlib

/-!
Verification of the SPEMS payment-compliance engine against its sources:
the authentication payment gate (src/middleware/auth.js), the daily
payment scheduler `checkAndRemindPayments` (src/unnamed/part_000), and the
payment routes (src/routes/reports.js).  Timestamps are modelled as minutes
since an epoch; calendar dates follow the JavaScript `Date` semantics used
by the sources (month subtraction with day-overflow normalization,
truncation to midnight).  The server time zone is taken to be UTC
throughout, so `setHours(0,0,0,0)` is UTC-midnight truncation.
-/

namespace SPEMS

/-- Payment status values used by the payment routes and the scheduler. -/
inductive PayStatus
| unpaid
| paid
| late
deriving DecidableEq, Repr

/-- User roles: the users table constrains role to admin or staff. -/
inductive Role
| admin
| staff
deriving DecidableEq, Repr

/-- A calendar DATE as stored in the `payment_month` column, with the month
zero-based as in JavaScript (`getMonth`). -/
structure MonthDate where
  year : Int
  month : Nat
  day : Nat
deriving DecidableEq, Repr

/-- A JavaScript `Date` value: calendar fields plus the time of day in
minutes (modelling the hours/minutes component; seconds are not needed by
any comparison in the sources). -/
structure JsDate where
  year : Int
  month : Nat
  day : Nat
  mins : Nat
deriving DecidableEq, Repr

/-- Gregorian leap-year rule. -/
def isLeapYear (y : Int) : Bool :=
  (y % 4 == 0 && y % 100 != 0) || (y % 400 == 0)

/-- Number of days of a zero-based month `m` of year `y`. -/
def daysInMonth (y : Int) (m : Nat) : Nat :=
  if m = 1 then (if isLeapYear y then 29 else 28)
  else if m = 3 ∨ m = 5 ∨ m = 8 ∨ m = 10 then 30
  else 31

/-- Days since 1970-01-01 of the Gregorian date (y, m, d), month 1-based
(the standard civil-from-days correspondence). -/
def daysFromCivil (y : Int) (m : Nat) (d : Nat) : Int :=
  let yAdj : Int := if m ≤ 2 then y - 1 else y
  let era : Int := yAdj.fdiv 400
  let yoe : Int := yAdj - era * 400
  let mp : Int := if 2 < m then (m : Int) - 3 else (m : Int) + 9
  let doy : Int := (153 * mp + 2).fdiv 5 + (d : Int) - 1
  let doe : Int := yoe * 365 + yoe.fdiv 4 - yoe.fdiv 100 + doy
  era * 146097 + doe - 719468

/-- A `JsDate` as a timestamp in minutes since the epoch. -/
def JsDate.toMinutes (dt : JsDate) : Int :=
  1440 * daysFromCivil dt.year (dt.month + 1) dt.day + dt.mins

/-- JavaScript `date.setMonth(date.getMonth() - 1)`: the month is
decremented (borrowing from the year at January), the day of month is kept,
and a day past the end of the target month overflows into the following
month, exactly as JavaScript normalizes out-of-range date fields. -/
def jsMonthMinusOne (dt : JsDate) : JsDate :=
  let y : Int := if dt.month = 0 then dt.year - 1 else dt.year
  let m : Nat := if dt.month = 0 then 11 else dt.month - 1
  if dt.day ≤ daysInMonth y m then ⟨y, m, dt.day, dt.mins⟩
  else if m = 11 then ⟨y + 1, 0, dt.day - daysInMonth y m, dt.mins⟩
  else ⟨y, m + 1, dt.day - daysInMonth y m, dt.mins⟩

/-- The `oneMonthAgo` value computed identically in auth.js, part_000 and
reports.js: `setMonth(getMonth() - 1)` followed by `setHours(0,0,0,0)`,
as a timestamp. -/
def oneMonthAgoTs (now : JsDate) : Int :=
  JsDate.toMinutes { jsMonthMinusOne now with mins := 0 }

/-- The `currentMonth` key: `now` with `setDate(1)` and midnight truncation;
its DATE part (`currentMonthStr` in the sources) is the first day of the
current month. -/
def currentMonthKey (now : JsDate) : MonthDate :=
  ⟨now.year, now.month, 1⟩

/-- Normalization of a stored `payment_month` to the first day of its month
(`new Date(pm); setDate(1)` in the sources, `getFirstDayOfMonth` in
reports.js). -/
def firstOfMonth (md : MonthDate) : MonthDate :=
  ⟨md.year, md.month, 1⟩

/-- The `today` value of the upcoming-block check: `now` truncated to
midnight, as a timestamp. -/
def todayMidnight (now : JsDate) : Int :=
  JsDate.toMinutes { now with mins := 0 }

/-- Ceiling division by one day (1440 minutes), the
`Math.ceil(diffMs / (1000*60*60*24))` of the sources. -/
def ceilDivDay (a : Int) : Int :=
  (a + 1439).fdiv 1440

/-- Days until block as computed by part_000 and the my-status route:
`blockDate = paid_at + 30 days` (keeping the time of day) and
`ceil((blockDate - today) / one day)` with `today` at midnight. -/
def daysUntilBlock (todayMid : Int) (paidAt : Int) : Int :=
  ceilDivDay (paidAt + 30 * 1440 - todayMid)

/-- The default payment method applied by the payment routes. -/
def momoMethod : String := "MOMO"

/-- A row of the `user_payments` table, with the columns the compliance
engine reads and writes. -/
structure PaymentRecord where
  id : Nat
  user_id : Nat
  amount : Int
  payment_month : MonthDate
  status : PayStatus
  payment_method : Option String
  paid_at : Option Int
deriving DecidableEq, Repr

/-- A row of the `users` table, restricted to the columns the compliance
engine consumes. -/
structure User where
  id : Nat
  role : Role
  approve_user : Bool
deriving DecidableEq, Repr

/-- The data store: the users and user_payments tables, plus the next
SERIAL id for payment inserts. -/
structure Store where
  users : List User
  payments : List PaymentRecord
  nextId : Nat
deriving Repr

/-- Predicate of the recent-paid-payment query: the record belongs to the
user, has status paid, a non-null paid_at, and paid_at on or after the
one-month-ago boundary. -/
def isFreshPaid (oma : Int) (uid : Nat) (r : PaymentRecord) : Bool :=
  decide (r.user_id = uid) && decide (r.status = PayStatus.paid) &&
    (match r.paid_at with
     | some t => decide (oma ≤ t)
     | none => false)

/-- Predicate of the last-ever-paid query: status paid with non-null
paid_at, regardless of the window. -/
def isEverPaid (uid : Nat) (r : PaymentRecord) : Bool :=
  decide (r.user_id = uid) && decide (r.status = PayStatus.paid) &&
    r.paid_at.isSome

/-- The paid_at value of a record, defaulting to 0 (only applied to records
whose paid_at is known to be non-null). -/
def paidAtVal (r : PaymentRecord) : Int :=
  r.paid_at.getD 0

/-- One step of the ORDER BY paid_at DESC LIMIT 1 selection. -/
def maxStep (acc : Option PaymentRecord) (r : PaymentRecord) : Option PaymentRecord :=
  match acc with
  | none => some r
  | some b => if paidAtVal b < paidAtVal r then some r else acc

/-- ORDER BY paid_at DESC LIMIT 1 over a result set: the first record with
maximal paid_at (the database row order breaks ties; the model keeps the
first one encountered). -/
def maxByPaidAt (l : List PaymentRecord) : Option PaymentRecord :=
  l.foldl maxStep none

/-- The recentPaidPayment query of auth.js, part_000 and reports.js:
the user's paid records with non-null paid_at within the window,
ORDER BY paid_at DESC LIMIT 1. -/
def recentPaidPayment (st : Store) (uid : Nat) (oma : Int) : Option PaymentRecord :=
  maxByPaidAt (st.payments.filter (isFreshPaid oma uid))

/-- The lastPaidAny query of part_000 and the my-status route: the user's
most recent ever-paid record, regardless of the window. -/
def lastPaidAny (st : Store) (uid : Nat) : Option PaymentRecord :=
  maxByPaidAt (st.payments.filter (isEverPaid uid))

/-- The existing-current-payment query: the record of the user whose
payment_month equals the current month key. -/
def existingCurrentPayment (st : Store) (uid : Nat) (cm : MonthDate) : Option PaymentRecord :=
  st.payments.find? (fun r => decide (r.user_id = uid) && decide (r.payment_month = cm))

/-- UPDATE user_payments SET status = unpaid, paid_at = NULL WHERE id = rid. -/
def resetToUnpaid (st : Store) (rid : Nat) : Store :=
  { st with payments := st.payments.map (fun r =>
      if r.id = rid then { r with status := PayStatus.unpaid, paid_at := none } else r) }

/-- INSERT INTO user_payments (user_id, amount, payment_month, status)
VALUES (uid, 15000, cm, unpaid).  Returns false and leaves the store
unchanged when the unique_user_month constraint on (user_id, payment_month)
rejects the row; both call sites catch and swallow that violation. -/
def insertUnpaid (st : Store) (uid : Nat) (cm : MonthDate) : Store × Bool :=
  if st.payments.any (fun r => decide (r.user_id = uid) && decide (r.payment_month = cm))
  then (st, false)
  else ({ st with
          payments := st.payments ++
            [⟨st.nextId, uid, 15000, cm, PayStatus.unpaid, none, none⟩],
          nextId := st.nextId + 1 }, true)

/-- Result of one user's evaluation inside a batch: the mutated store, the
numbers of records created and updated for that user, and whether the
monthly-due reminder fires. -/
structure EvalOut where
  store : Store
  created : Nat
  updated : Nat
  needsReminder : Bool

/-- Per-user evaluation of POST /api/payments/check-and-remind
(reports.js, body of the loop over users): the recent-paid and
existing-current reads, then the create/reset branch structure of the
source, returning the mutated store, the created/updated increments and
the needsReminder flag. -/
def processUserRoute (oma : Int) (cm : MonthDate) (st : Store) (uid : Nat) : EvalOut :=
  match recentPaidPayment st uid oma with
  | none =>
      match existingCurrentPayment st uid cm with
      | some payment =>
          if payment.status = PayStatus.paid then
            match payment.paid_at with
            | some t =>
                if t < oma then ⟨resetToUnpaid st payment.id, 0, 1, true⟩
                else ⟨st, 0, 0, true⟩
            | none => ⟨st, 0, 0, true⟩
          else ⟨st, 0, 0, true⟩
      | none =>
          let ins := insertUnpaid st uid cm
          ⟨ins.1, if ins.2 then 1 else 0, 0, true⟩
  | some lastPaid =>
      if firstOfMonth lastPaid.payment_month ≠ cm then
        match existingCurrentPayment st uid cm with
        | some currentPayment =>
            if currentPayment.status = PayStatus.paid then
              match currentPayment.paid_at with
              | none => ⟨resetToUnpaid st currentPayment.id, 0, 1, true⟩
              | some t =>
                  if t < oma then ⟨resetToUnpaid st currentPayment.id, 0, 1, true⟩
                  else ⟨st, 0, 0, false⟩
            else if currentPayment.status = PayStatus.unpaid then ⟨st, 0, 0, true⟩
            else ⟨st, 0, 0, false⟩
        | none =>
            let ins := insertUnpaid st uid cm
            ⟨ins.1, if ins.2 then 1 else 0, 0, ins.2⟩
      else
        match lastPaid.paid_at with
        | some t =>
            if t < oma then
              match existingCurrentPayment st uid cm with
              | some currentPayment =>
                  ⟨resetToUnpaid st currentPayment.id, 0, 1, true⟩
              | none => ⟨st, 0, 0, false⟩
            else ⟨st, 0, 0, false⟩
        | none => ⟨st, 0, 0, false⟩

/-- Per-user evaluation of the scheduler loop in part_000; the source body
is line-for-line the same create/reset logic as the route's loop. -/
def processUserSched (oma : Int) (cm : MonthDate) (st : Store) (uid : Nat) : EvalOut :=
  match recentPaidPayment st uid oma with
  | none =>
      match existingCurrentPayment st uid cm with
      | some payment =>
          if payment.status = PayStatus.paid then
            match payment.paid_at with
            | some t =>
                if t < oma then ⟨resetToUnpaid st payment.id, 0, 1, true⟩
                else ⟨st, 0, 0, true⟩
            | none => ⟨st, 0, 0, true⟩
          else ⟨st, 0, 0, true⟩
      | none =>
          let ins := insertUnpaid st uid cm
          ⟨ins.1, if ins.2 then 1 else 0, 0, true⟩
  | some lastPaid =>
      if firstOfMonth lastPaid.payment_month ≠ cm then
        match existingCurrentPayment st uid cm with
        | some currentPayment =>
            if currentPayment.status = PayStatus.paid then
              match currentPayment.paid_at with
              | none => ⟨resetToUnpaid st currentPayment.id, 0, 1, true⟩
              | some t =>
                  if t < oma then ⟨resetToUnpaid st currentPayment.id, 0, 1, true⟩
                  else ⟨st, 0, 0, false⟩
            else if currentPayment.status = PayStatus.unpaid then ⟨st, 0, 0, true⟩
            else ⟨st, 0, 0, false⟩
        | none =>
            let ins := insertUnpaid st uid cm
            ⟨ins.1, if ins.2 then 1 else 0, 0, ins.2⟩
      else
        match lastPaid.paid_at with
        | some t =>
            if t < oma then
              match existingCurrentPayment st uid cm with
              | some currentPayment =>
                  ⟨resetToUnpaid st currentPayment.id, 0, 1, true⟩
              | none => ⟨st, 0, 0, false⟩
            else ⟨st, 0, 0, false⟩
        | none => ⟨st, 0, 0, false⟩

/-- A notification handed to the email dispatcher: the monthly-due reminder
or the upcoming-block (pre-block) reminder.  Sends are modelled as
succeeding; the sources catch and log every send failure without touching
record state. -/
inductive Notif
| due (uid : Nat)
| preBlock (uid : Nat)
deriving DecidableEq, Repr

/-- Whether a notification is a monthly-due reminder. -/
def Notif.isDue : Notif → Bool
| due _ => true
| preBlock _ => false

/-- The counts returned by POST /api/payments/check-and-remind. -/
structure RouteCounts where
  remindersSent : Nat
  paymentsCreated : Nat
  paymentsUpdated : Nat
  totalUsersChecked : Nat
deriving DecidableEq, Repr

/-- The counts the scheduler in part_000 accumulates and logs. -/
structure SchedCounts where
  remindersSent : Nat
  upcomingBlockRemindersSent : Nat
  paymentsCreated : Nat
  paymentsUpdated : Nat
deriving DecidableEq, Repr

/-- The user query of both batch runs: all approved non-admin users (the
route adds ORDER BY id; the model takes the stored list as that order). -/
def approvedNonAdmins (st : Store) : List User :=
  st.users.filter (fun u => u.approve_user && decide (u.role ≠ Role.admin))

/-- The loop of POST /api/payments/check-and-remind over the user list,
accumulating counts and emitted reminder notifications. -/
def runUsersRoute (oma : Int) (cm : MonthDate) (st : Store) :
    List User → Store × RouteCounts × List Notif
| [] => (st, ⟨0, 0, 0, 0⟩, [])
| u :: rest =>
    let e := processUserRoute oma cm st u.id
    let ns : List Notif := if e.needsReminder then [Notif.due u.id] else []
    let r := runUsersRoute oma cm e.store rest
    (r.1,
     ⟨(if e.needsReminder then 1 else 0) + r.2.1.remindersSent,
      e.created + r.2.1.paymentsCreated,
      e.updated + r.2.1.paymentsUpdated,
      r.2.1.totalUsersChecked + 1⟩,
     ns ++ r.2.2)

/-- POST /api/payments/check-and-remind (reports.js): the on-demand
administrative batch run, returning the mutated store, the response counts
and the notifications sent. -/
def checkAndRemindRoute (now : JsDate) (st : Store) :
    Store × RouteCounts × List Notif :=
  runUsersRoute (oneMonthAgoTs now) (currentMonthKey now) st (approvedNonAdmins st)

/-- The upcoming-block check of part_000, run after a user's mutations:
the user's last ever-paid record determines daysUntilBlock, and the
reminder fires exactly when it equals 2. -/
def preBlockCheck (st : Store) (uid : Nat) (todayMid : Int) : Bool :=
  match lastPaidAny st uid with
  | some r => decide (daysUntilBlock todayMid (paidAtVal r) = 2)
  | none => false

/-- The scheduler loop of part_000 over the user list: the same per-user
create/reset evaluation as the route, followed by the upcoming-block
reminder check on the post-mutation store. -/
def runUsersSched (oma : Int) (cm : MonthDate) (todayMid : Int) (st : Store) :
    List User → Store × SchedCounts × List Notif
| [] => (st, ⟨0, 0, 0, 0⟩, [])
| u :: rest =>
    let e := processUserSched oma cm st u.id
    let pb := preBlockCheck e.store u.id todayMid
    let ns : List Notif :=
      (if e.needsReminder then [Notif.due u.id] else []) ++
      (if pb then [Notif.preBlock u.id] else [])
    let r := runUsersSched oma cm todayMid e.store rest
    (r.1,
     ⟨(if e.needsReminder then 1 else 0) + r.2.1.remindersSent,
      (if pb then 1 else 0) + r.2.1.upcomingBlockRemindersSent,
      e.created + r.2.1.paymentsCreated,
      e.updated + r.2.1.paymentsUpdated⟩,
     ns ++ r.2.2)

/-- checkAndRemindPayments of part_000: the daily scheduler batch. -/
def checkAndRemindPayments (now : JsDate) (st : Store) :
    Store × SchedCounts × List Notif :=
  runUsersSched (oneMonthAgoTs now) (currentMonthKey now) (todayMidnight now)
    st (approvedNonAdmins st)

/-- The payment-status portion of `authenticate` (auth.js lines 41-66):
admin users skip the check entirely; other users pass if and only if the
recent-paid-payment query (status paid, non-null paid_at, paid_at on or
after oneMonthAgo) returns a row. -/
def paymentGateAllows (st : Store) (u : User) (now : JsDate) : Bool :=
  if u.role ≠ Role.admin then
    (recentPaidPayment st u.id (oneMonthAgoTs now)).isSome
  else true

/-- The route loop with a fallible data store: `fails uid = true` models
the per-user recentPaidPayment SELECT throwing a database error for that
user.  The source wraps no per-user read in a try/catch (only the creation
INSERT and the email sends are caught), so the error propagates out of the
loop and out of the route handler. -/
def runUsersRouteF (fails : Nat → Bool) (oma : Int) (cm : MonthDate) (st : Store) :
    List User → Except Unit (Store × RouteCounts × List Notif)
| [] => Except.ok (st, ⟨0, 0, 0, 0⟩, [])
| u :: rest =>
    if fails u.id then Except.error ()
    else
      let e := processUserRoute oma cm st u.id
      let ns : List Notif := if e.needsReminder then [Notif.due u.id] else []
      match runUsersRouteF fails oma cm e.store rest with
      | Except.error err => Except.error err
      | Except.ok r =>
          Except.ok (r.1,
            ⟨(if e.needsReminder then 1 else 0) + r.2.1.remindersSent,
             e.created + r.2.1.paymentsCreated,
             e.updated + r.2.1.paymentsUpdated,
             r.2.1.totalUsersChecked + 1⟩,
            ns ++ r.2.2)

/-- POST /api/payments/check-and-remind over a fallible data store: an
uncaught per-user error escapes the asyncHandler as a request failure, so
no counts are returned.  (The record mutations already committed for
earlier users persist in the database; the model reports only the
abort.) -/
def checkAndRemindRouteF (fails : Nat → Bool) (now : JsDate) (st : Store) :
    Except Unit (Store × RouteCounts × List Notif) :=
  runUsersRouteF fails (oneMonthAgoTs now) (currentMonthKey now) st (approvedNonAdmins st)

/-- The scheduler loop with a fallible data store, as `runUsersRouteF` but
with the scheduler's upcoming-block check and counts. -/
def runUsersSchedF (fails : Nat → Bool) (oma : Int) (cm : MonthDate) (todayMid : Int)
    (st : Store) : List User → Except Unit (Store × SchedCounts × List Notif)
| [] => Except.ok (st, ⟨0, 0, 0, 0⟩, [])
| u :: rest =>
    if fails u.id then Except.error ()
    else
      let e := processUserSched oma cm st u.id
      let pb := preBlockCheck e.store u.id todayMid
      let ns : List Notif :=
        (if e.needsReminder then [Notif.due u.id] else []) ++
        (if pb then [Notif.preBlock u.id] else [])
      match runUsersSchedF fails oma cm todayMid e.store rest with
      | Except.error err => Except.error err
      | Except.ok r =>
          Except.ok (r.1,
            ⟨(if e.needsReminder then 1 else 0) + r.2.1.remindersSent,
             (if pb then 1 else 0) + r.2.1.upcomingBlockRemindersSent,
             e.created + r.2.1.paymentsCreated,
             e.updated + r.2.1.paymentsUpdated⟩,
            ns ++ r.2.2)

/-- checkAndRemindPayments of part_000 over a fallible data store: the one
try/catch around the whole function swallows a per-user error at top level
(logging it), so the call reports nothing and the remaining users are
never evaluated. -/
def checkAndRemindPaymentsF (fails : Nat → Bool) (now : JsDate) (st : Store) :
    Option (Store × SchedCounts × List Notif) :=
  match runUsersSchedF fails (oneMonthAgoTs now) (currentMonthKey now)
      (todayMidnight now) st (approvedNonAdmins st) with
  | Except.error _ => none
  | Except.ok r => some r

/-- Request body of PUT /api/payments/:id.  A `none` field is an absent
(undefined) field; the status field, when present, has already passed the
route's validation against paid/unpaid/late. -/
structure PutBody where
  status : Option PayStatus
  payment_method : Option String
  payment_month : Option MonthDate
deriving Repr

/-- Error responses of PUT /api/payments/:id. -/
inductive PutError
| notFound
| duplicateMonth
| noFields
deriving DecidableEq, Repr

/-- The duplicate-month guard of PUT /api/payments/:id: when a
payment_month is supplied and its normalization differs from the record's,
another record of the same user with that month (a different id) makes the
update fail. -/
def dupMonth (st : Store) (pid : Nat) (currentPayment : PaymentRecord)
    (body : PutBody) : Bool :=
  match body.payment_month.map firstOfMonth with
  | none => false
  | some nm =>
      decide (nm ≠ currentPayment.payment_month) &&
      st.payments.any (fun r =>
        decide (r.user_id = currentPayment.user_id) &&
        decide (r.payment_month = nm) && decide (r.id ≠ pid))

/-- The no-fields-to-update guard of PUT /api/payments/:id: the assembled
field list is empty exactly when no body field is present and the record
already has a payment_method. -/
def noFieldsToUpdate (currentPayment : PaymentRecord) (body : PutBody) : Bool :=
  body.status.isNone && body.payment_method.isNone &&
    currentPayment.payment_method.isSome && body.payment_month.isNone

/-- The new value of paid_at written by PUT /api/payments/:id: set to now on
a transition into paid, cleared on a transition from paid to unpaid, and
otherwise left as it was. -/
def putNewPaidAt (currentPayment : PaymentRecord) (body : PutBody)
    (nowTs : Int) : Option Int :=
  if body.status = some PayStatus.paid ∧
      currentPayment.status ≠ PayStatus.paid then some nowTs
  else if body.status = some PayStatus.unpaid ∧
      currentPayment.status = PayStatus.paid then none
  else currentPayment.paid_at

/-- The record written by PUT /api/payments/:id in place of the matched
record: status and normalized payment_month when provided, payment_method
when provided or defaulted to MOMO when the record has none, and paid_at
per `putNewPaidAt`. -/
def putUpdatedRecord (currentPayment : PaymentRecord) (body : PutBody)
    (nowTs : Int) (r : PaymentRecord) : PaymentRecord :=
  { r with
    status := body.status.getD currentPayment.status,
    payment_method :=
      match body.payment_method with
      | some m => some m
      | none =>
          match currentPayment.payment_method with
          | none => some momoMethod
          | some m => some m,
    payment_month := (body.payment_month.map firstOfMonth).getD r.payment_month,
    paid_at := putNewPaidAt currentPayment body nowTs }

/-- PUT /api/payments/:id (reports.js).  The source assembles an UPDATE
field-by-field; the model computes the same final field values via
`putUpdatedRecord`, after the duplicate-month and no-fields guards. -/
def putPayment (st : Store) (pid : Nat) (body : PutBody) (nowTs : Int) :
    Except PutError Store :=
  match st.payments.find? (fun r => decide (r.id = pid)) with
  | none => Except.error PutError.notFound
  | some currentPayment =>
      if dupMonth st pid currentPayment body then
        Except.error PutError.duplicateMonth
      else if noFieldsToUpdate currentPayment body then
        Except.error PutError.noFields
      else
        Except.ok { st with payments := st.payments.map (fun r =>
          if r.id = pid then putUpdatedRecord currentPayment body nowTs r
          else r) }

/-- Request body of POST /api/payments (the required fields user_id, amount
and payment_month, plus the optional status and payment_method). -/
structure PostBody where
  user_id : Nat
  amount : Int
  payment_month : MonthDate
  status : Option PayStatus
  payment_method : Option String
deriving Repr

/-- Error responses of POST /api/payments. -/
inductive PostError
| userNotFound
| adminUser
deriving DecidableEq, Repr

/-- The paid_at written by POST /api/payments on its update path: now when
the supplied status is paid, null when it is unpaid, otherwise the existing
record's paid_at. -/
def postNewPaidAt (existingPayment : PaymentRecord) (body : PostBody)
    (nowTs : Int) : Option Int :=
  if body.status = some PayStatus.paid then some nowTs
  else if body.status = some PayStatus.unpaid then none
  else existingPayment.paid_at

/-- The record written by POST /api/payments in place of an existing
(user_id, month) record: amount always, status and payment_method with the
source's fallbacks, paid_at per `postNewPaidAt`; payment_month is not
touched on this path. -/
def postUpdatedRecord (existingPayment : PaymentRecord) (body : PostBody)
    (nowTs : Int) (r : PaymentRecord) : PaymentRecord :=
  { r with
    amount := body.amount,
    status := body.status.getD existingPayment.status,
    payment_method :=
      match body.payment_method with
      | some m => some m
      | none =>
          match existingPayment.payment_method with
          | some m => some m
          | none => some momoMethod,
    paid_at := postNewPaidAt existingPayment body nowTs }

/-- The row inserted by POST /api/payments when no record exists for
(user_id, normalized month): paid_at is now exactly when the supplied
status is paid. -/
def postInsertedRecord (st : Store) (body : PostBody) (nowTs : Int) :
    PaymentRecord :=
  ⟨st.nextId, body.user_id, body.amount, firstOfMonth body.payment_month,
   body.status.getD PayStatus.unpaid,
   some (body.payment_method.getD momoMethod),
   if body.status = some PayStatus.paid then some nowTs else none⟩

/-- POST /api/payments (reports.js): normalizes payment_month to the first
day of its month, refuses admin users, and either updates the existing
record of (user_id, normalized month) in place (responding 200, an update:
the Bool is true) or inserts a new record (responding 201, a creation: the
Bool is false). -/
def createPayment (st : Store) (body : PostBody) (nowTs : Int) :
    Except PostError (Store × Bool) :=
  match st.users.find? (fun u => decide (u.id = body.user_id)) with
  | none => Except.error PostError.userNotFound
  | some u =>
      if u.role = Role.admin then Except.error PostError.adminUser
      else
        match existingCurrentPayment st body.user_id (firstOfMonth body.payment_month) with
        | some existingPayment =>
            Except.ok ({ st with payments := st.payments.map (fun r =>
              if r.id = existingPayment.id then
                postUpdatedRecord existingPayment body nowTs r
              else r) }, true)
        | none =>
            Except.ok ({ st with
              payments := st.payments ++ [postInsertedRecord st body nowTs],
              nextId := st.nextId + 1 }, false)

/-- The record fields written by every freshness reset of the batch:
status unpaid and paid_at cleared. -/
def resetFields (r : PaymentRecord) : PaymentRecord :=
  { r with status := PayStatus.unpaid, paid_at := none }

/-- Store well-formedness guaranteed by the schema: payment ids are the
distinct values of a SERIAL primary key, all below the next id. -/
def WellFormed (st : Store) : Prop :=
  (st.payments.map PaymentRecord.id).Nodup ∧ ∀ r ∈ st.payments, r.id < st.nextId

instance (st : Store) : Decidable (WellFormed st) := by
  unfold WellFormed; infer_instance

/-- The unique_user_month invariant: no two records share
(user_id, payment_month). -/
def UniquePairs (st : Store) : Prop :=
  st.payments.Pairwise (fun a b =>
    ¬(a.user_id = b.user_id ∧ a.payment_month = b.payment_month))

instance (st : Store) : Decidable (UniquePairs st) := by
  unfold UniquePairs; infer_instance

/-- The result set of the recent-paid-payment query before LIMIT 1. -/
def FreshList (oma : Int) (uid : Nat) (st : Store) : List PaymentRecord :=
  st.payments.filter (isFreshPaid oma uid)

/-- A user has a record for the current month key. -/
def HasCurrent (cm : MonthDate) (st : Store) (uid : Nat) : Prop :=
  ∃ r ∈ st.payments, r.user_id = uid ∧ r.payment_month = cm

/-- Invariant established for a user by one batch evaluation: either the
user has a current-month record, or the user's recent paid record already
belongs to the current month (the branch that never creates). -/
def GoodUser (oma : Int) (cm : MonthDate) (st : Store) (uid : Nat) : Prop :=
  HasCurrent cm st uid ∨
  ∃ r, recentPaidPayment st uid oma = some r ∧ firstOfMonth r.payment_month = cm

/-- Every paid record carries a non-null paid_at (the direction of the
paid_at invariant the code maintains). -/
def PaidHasPaidAt (st : Store) : Prop :=
  ∀ r ∈ st.payments, r.status = PayStatus.paid → r.paid_at ≠ none

instance (st : Store) : Decidable (PaidHasPaidAt st) := by
  unfold PaidHasPaidAt; infer_instance

/-- Concrete approved staff user. -/
def staffUser (i : Nat) : User :=
  ⟨i, Role.staff, true⟩

/-- Concrete instant: January 31, 2026, 12:00 UTC. -/
def nowJan31 : JsDate := ⟨2026, 0, 31, 720⟩

/-- Timestamp of December 31, 2025, 12:00 UTC — exactly 31 days before
`nowJan31`. -/
def paidDec31 : Int := JsDate.toMinutes ⟨2025, 11, 31, 720⟩

/-- Store with one staff user whose only record is paid 31 days before
`nowJan31`. -/
def storeJan : Store :=
  ⟨[staffUser 1],
   [⟨1, 1, 15000, ⟨2025, 11, 1⟩, PayStatus.paid, none, some paidDec31⟩], 2⟩

/-- Concrete instant: March 31, 2026, 12:00 UTC. -/
def nowMar31 : JsDate := ⟨2026, 2, 31, 720⟩

/-- Timestamp of March 2, 2026, 12:00 UTC — exactly 29 days before
`nowMar31`. -/
def paidMar2 : Int := JsDate.toMinutes ⟨2026, 2, 2, 720⟩

/-- Store with one staff user whose only record is paid 29 days before
`nowMar31`. -/
def storeMar : Store :=
  ⟨[staffUser 1],
   [⟨1, 1, 15000, ⟨2026, 1, 1⟩, PayStatus.paid, none, some paidMar2⟩], 2⟩

/-- Concrete instant: September 15, 2026, 09:00 UTC. -/
def nowSep15 : JsDate := ⟨2026, 8, 15, 540⟩

/-- Timestamp of August 18, 2026, midnight UTC: 28 days before the
September 15 midnight, so daysUntilBlock evaluates to 2. -/
def paidAug18 : Int := JsDate.toMinutes ⟨2026, 7, 18, 0⟩

/-- Store with one staff user holding a current-month paid record with
paid_at 28 days back. -/
def storeSep : Store :=
  ⟨[staffUser 1],
   [⟨1, 1, 15000, ⟨2026, 8, 1⟩, PayStatus.paid, none, some paidAug18⟩], 2⟩

/-- Store with three approved staff users and no payment records. -/
def storeThree : Store :=
  ⟨[staffUser 1, staffUser 2, staffUser 3], [], 1⟩

/-- Failure oracle: the data-store read for user 2 throws. -/
def failsUserTwo : Nat → Bool :=
  fun i => decide (i = 2)

/-- Concrete approved admin user. -/
def adminUser : User :=
  ⟨9, Role.admin, true⟩

/-- Store with one staff user holding a paid record with paid_at 1000. -/
def storePaid : Store :=
  ⟨[staffUser 1],
   [⟨1, 1, 15000, ⟨2026, 8, 1⟩, PayStatus.paid, some momoMethod, some 1000⟩], 2⟩

/-- PUT body that sets only status = late. -/
def lateBody : PutBody :=
  ⟨some PayStatus.late, none, none⟩

/-- The store after PUT status = late on the paid record of `storePaid`:
status becomes late but paid_at is retained. -/
def storeLate : Store :=
  ⟨[staffUser 1],
   [⟨1, 1, 15000, ⟨2026, 8, 1⟩, PayStatus.late, some momoMethod, some 1000⟩], 2⟩

/-- Store holding only the admin user. -/
def storeAdmin : Store :=
  ⟨[adminUser], [], 1⟩

/-- POST body targeting the admin user. -/
def postBodyAdmin : PostBody :=
  ⟨9, 15000, ⟨2026, 8, 15⟩, none, none⟩

/-- POST body for user 1 with a mid-month payment_month. -/
def postBodyNew : PostBody :=
  ⟨1, 15000, ⟨2026, 8, 15⟩, none, none⟩

/-- The store after POST of `postBodyNew` against `storeThree`: one new
record with the month normalized to its first day. -/
def storeThreeAfterPost : Store :=
  ⟨[staffUser 1, staffUser 2, staffUser 3],
   [⟨1, 1, 15000, ⟨2026, 8, 1⟩, PayStatus.unpaid, some momoMethod, none⟩], 2⟩

/-- POST body for user 1 hitting the month of the existing record of
`storePaid` (normalized), with status unpaid. -/
def postBodyUpd : PostBody :=
  ⟨1, 20000, ⟨2026, 8, 20⟩, some PayStatus.unpaid, none⟩

/-- The store after POST of `postBodyUpd` against `storePaid`: the existing
record updated in place. -/
def storePaidUpd : Store :=
  ⟨[staffUser 1],
   [⟨1, 1, 20000, ⟨2026, 8, 1⟩, PayStatus.unpaid, some momoMethod, none⟩], 2⟩

theorem maxStep_isSome (acc : Option PaymentRecord) (r : PaymentRecord) :
    (maxStep acc r).isSome = true := by
  cases acc with
  | none => rfl
  | some b =>
      show (if paidAtVal b < paidAtVal r then some r else some b).isSome = true
      split <;> rfl

theorem foldl_maxStep_isSome (l : List PaymentRecord) :
    ∀ acc : Option PaymentRecord, acc.isSome = true →
      (l.foldl maxStep acc).isSome = true := by
  induction l with
  | nil => intro acc h; simpa using h
  | cons a t ih =>
      intro acc _
      rw [List.foldl_cons]
      exact ih (maxStep acc a) (maxStep_isSome acc a)

theorem maxByPaidAt_isSome_of_ne_nil {l : List PaymentRecord} (h : l ≠ []) :
    (maxByPaidAt l).isSome = true := by
  cases l with
  | nil => exact absurd rfl h
  | cons a t =>
      unfold maxByPaidAt
      rw [List.foldl_cons]
      exact foldl_maxStep_isSome t (maxStep none a) (maxStep_isSome none a)

theorem maxStep_eq_some {acc : Option PaymentRecord} {a r : PaymentRecord}
    (h : maxStep acc a = some r) : r = a ∨ acc = some r := by
  cases acc with
  | none => exact Or.inl (Option.some.inj h).symm
  | some b =>
      have h' : (if paidAtVal b < paidAtVal a then some a else some b) = some r := h
      split at h'
      · exact Or.inl (Option.some.inj h').symm
      · exact Or.inr h'

theorem foldl_maxStep_mem (l : List PaymentRecord) :
    ∀ (acc : Option PaymentRecord) (r : PaymentRecord),
      l.foldl maxStep acc = some r → r ∈ l ∨ acc = some r := by
  induction l with
  | nil => intro acc r h; exact Or.inr h
  | cons a t ih =>
      intro acc r h
      rw [List.foldl_cons] at h
      rcases ih (maxStep acc a) r h with hm | he
      · exact Or.inl (List.mem_cons_of_mem a hm)
      · rcases maxStep_eq_some he with h1 | h2
        · exact Or.inl (h1 ▸ List.mem_cons_self a t)
        · exact Or.inr h2

theorem maxByPaidAt_mem {l : List PaymentRecord} {r : PaymentRecord}
    (h : maxByPaidAt l = some r) : r ∈ l := by
  rcases foldl_maxStep_mem l none r h with hm | he
  · exact hm
  · cases he

theorem recentPaidPayment_mem_fresh {st : Store} {uid : Nat} {oma : Int}
    {r : PaymentRecord} (h : recentPaidPayment st uid oma = some r) :
    r ∈ st.payments ∧ isFreshPaid oma uid r = true := by
  have hmem := maxByPaidAt_mem h
  exact ⟨(List.mem_filter.mp hmem).1, (List.mem_filter.mp hmem).2⟩

theorem isFreshPaid_iff {oma : Int} {uid : Nat} {r : PaymentRecord} :
    isFreshPaid oma uid r = true ↔
      r.user_id = uid ∧ r.status = PayStatus.paid ∧
        ∃ t, r.paid_at = some t ∧ oma ≤ t := by
  unfold isFreshPaid
  cases h : r.paid_at with
  | none => simp [h]
  | some t => simp [h, and_assoc]

theorem recentPaidPayment_isSome_iff {st : Store} {uid : Nat} {oma : Int} :
    (recentPaidPayment st uid oma).isSome = true ↔
      ∃ r ∈ st.payments, isFreshPaid oma uid r = true := by
  constructor
  · intro h
    obtain ⟨r, hr⟩ := Option.isSome_iff_exists.mp h
    have := recentPaidPayment_mem_fresh hr
    exact ⟨r, this.1, this.2⟩
  · rintro ⟨r, hmem, hp⟩
    apply maxByPaidAt_isSome_of_ne_nil
    intro hnil
    have : r ∈ st.payments.filter (isFreshPaid oma uid) :=
      List.mem_filter.mpr ⟨hmem, hp⟩
    rw [hnil] at this
    cases this

/-- C7: for every store, every user with role admin and every time, the
payment portion of the access gate allows the request, regardless of the
user's payment history — the payment check is skipped entirely for
admins. -/
theorem c7_admin_bypass :
    ∀ (st : Store) (u : User) (now : JsDate),
      u.role = Role.admin → paymentGateAllows st u now = true := by
  intro st u now h
  simp [paymentGateAllows, h]

/-- Witness for C7 at a concrete admin user with no payment records. -/
theorem c7_admin_bypass_witness :
    adminUser.role = Role.admin ∧
      paymentGateAllows storeThree adminUser nowSep15 = true :=
  ⟨rfl, c7_admin_bypass storeThree adminUser nowSep15 rfl⟩

/-- C1 counterexample: the gate's boundary is JavaScript calendar-month
subtraction truncated to midnight, not a fixed 30-day window.  At
January 31, 2026, 12:00, a payment exactly 31 days old (December 31, 2025,
12:00) is allowed, although the claim says a 31-day-old payment is denied;
at March 31, 2026, 12:00, a payment exactly 29 days old (March 2, 12:00) is
denied (the boundary overflows to March 3), although the claim says a
29-day-old payment is allowed. -/
theorem c1_gate_window_counterexample :
    paymentGateAllows storeJan (staffUser 1) nowJan31 = true ∧
    paidDec31 = JsDate.toMinutes nowJan31 - 31 * 1440 ∧
    paymentGateAllows storeMar (staffUser 1) nowMar31 = false ∧
    paidMar2 = JsDate.toMinutes nowMar31 - 29 * 1440 := by
  refine ⟨by decide, by decide, by decide, by decide⟩

/-- C1 amended: for every non-admin user the gate allows the request iff a
payment record exists with status paid, non-null paid_at, and paid_at on or
after midnight of now with its month decremented by one (JS setMonth
semantics, with day overflow into the next month); the window therefore
varies with the calendar, as the two concrete boundary cases show. -/
theorem c1_gate_calendar_window :
    (∀ (st : Store) (u : User) (now : JsDate), u.role ≠ Role.admin →
      (paymentGateAllows st u now = true ↔
        ∃ r ∈ st.payments, r.user_id = u.id ∧ r.status = PayStatus.paid ∧
          ∃ t, r.paid_at = some t ∧ oneMonthAgoTs now ≤ t)) ∧
    paymentGateAllows storeJan (staffUser 1) nowJan31 = true ∧
    paymentGateAllows storeMar (staffUser 1) nowMar31 = false := by
  refine ⟨?_, by decide, by decide⟩
  intro st u now h
  simp only [paymentGateAllows, if_pos h]
  rw [recentPaidPayment_isSome_iff]
  simp only [isFreshPaid_iff]

/-- Witness for the amended C1 at a concrete non-admin user. -/
theorem c1_gate_calendar_window_witness :
    (staffUser 1).role ≠ Role.admin ∧
      (paymentGateAllows storeJan (staffUser 1) nowJan31 = true ↔
        ∃ r ∈ storeJan.payments, r.user_id = (staffUser 1).id ∧
          r.status = PayStatus.paid ∧
          ∃ t, r.paid_at = some t ∧ oneMonthAgoTs nowJan31 ≤ t) :=
  ⟨by decide, c1_gate_calendar_window.1 storeJan (staffUser 1) nowJan31 (by decide)⟩

theorem processUserSched_eq_route : processUserSched = processUserRoute := rfl

theorem runUsersRouteF_error (fails : Nat → Bool) (oma : Int) (cm : MonthDate) :
    ∀ (pre : List User) (st : Store) (u : User) (post : List User),
      (∀ v ∈ pre, fails v.id = false) → fails u.id = true →
      runUsersRouteF fails oma cm st (pre ++ u :: post) = Except.error () := by
  intro pre
  induction pre with
  | nil =>
      intro st u post _ hu
      simp [runUsersRouteF, hu]
  | cons a t ih =>
      intro st u post hpre hu
      have ha : fails a.id = false := hpre a (List.mem_cons_self a t)
      have hrec := ih (processUserRoute oma cm st a.id).store u post
        (fun v hv => hpre v (List.mem_cons_of_mem a hv)) hu
      rw [List.cons_append]
      simp [runUsersRouteF, ha, hrec]

theorem runUsersSchedF_error (fails : Nat → Bool) (oma : Int) (cm : MonthDate)
    (tm : Int) :
    ∀ (pre : List User) (st : Store) (u : User) (post : List User),
      (∀ v ∈ pre, fails v.id = false) → fails u.id = true →
      runUsersSchedF fails oma cm tm st (pre ++ u :: post) = Except.error () := by
  intro pre
  induction pre with
  | nil =>
      intro st u post _ hu
      simp [runUsersSchedF, hu]
  | cons a t ih =>
      intro st u post hpre hu
      have ha : fails a.id = false := hpre a (List.mem_cons_self a t)
      have hrec := ih (processUserSched oma cm st a.id).store u post
        (fun v hv => hpre v (List.mem_cons_of_mem a hv)) hu
      rw [List.cons_append]
      simp [runUsersSchedF, ha, hrec]

theorem runUsersRouteF_ok (fails : Nat → Bool) (oma : Int) (cm : MonthDate) :
    ∀ (users : List User) (st : Store),
      (∀ v ∈ users, fails v.id = false) →
      runUsersRouteF fails oma cm st users =
        Except.ok (runUsersRoute oma cm st users) := by
  intro users
  induction users with
  | nil => intro st _; rfl
  | cons u rest ih =>
      intro st h
      have hu : fails u.id = false := h u (List.mem_cons_self u rest)
      have hrec := ih (processUserRoute oma cm st u.id).store
        (fun v hv => h v (List.mem_cons_of_mem u hv))
      simp [runUsersRouteF, runUsersRoute, hu, hrec]

/-- C2 counterexample: over three approved staff users where the per-user
data-store read for user 2 throws, the admin route's batch surfaces the
error (no counts are returned at all, let alone usersChecked = 3), and the
scheduler's batch — whose single try/catch wraps the whole loop — reports
nothing; in neither case is the batch continued past the failing user. -/
theorem c2_read_failure_counterexample :
    checkAndRemindRouteF failsUserTwo nowSep15 storeThree = Except.error () ∧
    checkAndRemindPaymentsF failsUserTwo nowSep15 storeThree = none :=
  ⟨rfl, rfl⟩

/-- C2 amended: an error thrown by a per-user data-store read aborts the
remaining loop — the admin route propagates it out of the handler, the
scheduler swallows it at top level and reports nothing — and only when no
per-user read fails does the fallible route batch complete and agree with
the infallible one.  (Only the record-creation INSERT and the email sends
are caught per user in the sources.) -/
theorem c2_read_failure_aborts_batch :
    (∀ (fails : Nat → Bool) (now : JsDate) (st : Store)
       (pre post : List User) (u : User),
      approvedNonAdmins st = pre ++ u :: post →
      (∀ v ∈ pre, fails v.id = false) → fails u.id = true →
      checkAndRemindRouteF fails now st = Except.error () ∧
      checkAndRemindPaymentsF fails now st = none) ∧
    (∀ (fails : Nat → Bool) (now : JsDate) (st : Store),
      (∀ v ∈ approvedNonAdmins st, fails v.id = false) →
      checkAndRemindRouteF fails now st =
        Except.ok (checkAndRemindRoute now st)) := by
  constructor
  · intro fails now st pre post u hsplit hpre hu
    constructor
    · unfold checkAndRemindRouteF
      rw [hsplit]
      exact runUsersRouteF_error fails _ _ pre st u post hpre hu
    · unfold checkAndRemindPaymentsF
      rw [hsplit, runUsersSchedF_error fails _ _ _ pre st u post hpre hu]
  · intro fails now st h
    unfold checkAndRemindRouteF checkAndRemindRoute
    exact runUsersRouteF_ok fails _ _ (approvedNonAdmins st) st h

/-- Witness for the amended C2 at the concrete three-user store. -/
theorem c2_read_failure_aborts_batch_witness :
    approvedNonAdmins storeThree = [staffUser 1] ++ staffUser 2 :: [staffUser 3] ∧
    (checkAndRemindRouteF failsUserTwo nowSep15 storeThree = Except.error () ∧
     checkAndRemindPaymentsF failsUserTwo nowSep15 storeThree = none) :=
  ⟨by decide,
   c2_read_failure_aborts_batch.1 failsUserTwo nowSep15 storeThree
     [staffUser 1] [staffUser 3] (staffUser 2) (by decide) (by decide) (by decide)⟩

theorem filter_isDue_due (c : Bool) (uid : Nat) :
    List.filter Notif.isDue (if c then [Notif.due uid] else []) =
      (if c then [Notif.due uid] else []) := by
  cases c <;> simp [Notif.isDue]

theorem filter_isDue_preBlock (c : Bool) (uid : Nat) :
    List.filter Notif.isDue (if c then [Notif.preBlock uid] else []) = [] := by
  cases c <;> simp [Notif.isDue]

theorem runUsers_route_sched_agree (oma : Int) (cm : MonthDate) (tm : Int) :
    ∀ (users : List User) (st : Store),
      (runUsersRoute oma cm st users).1 = (runUsersSched oma cm tm st users).1 ∧
      (runUsersRoute oma cm st users).2.1.remindersSent =
        (runUsersSched oma cm tm st users).2.1.remindersSent ∧
      (runUsersRoute oma cm st users).2.1.paymentsCreated =
        (runUsersSched oma cm tm st users).2.1.paymentsCreated ∧
      (runUsersRoute oma cm st users).2.1.paymentsUpdated =
        (runUsersSched oma cm tm st users).2.1.paymentsUpdated ∧
      (runUsersRoute oma cm st users).2.2 =
        (runUsersSched oma cm tm st users).2.2.filter Notif.isDue := by
  intro users
  induction users with
  | nil => intro st; exact ⟨rfl, rfl, rfl, rfl, rfl⟩
  | cons u rest ih =>
      intro st
      have he : processUserSched oma cm st u.id = processUserRoute oma cm st u.id := by
        rw [processUserSched_eq_route]
      simp only [runUsersRoute, runUsersSched, he]
      obtain ⟨h1, h2, h3, h4, h5⟩ := ih (processUserRoute oma cm st u.id).store
      refine ⟨h1, by simp [h2], by simp [h3], by simp [h4], ?_⟩
      simp only [List.filter_append, filter_isDue_due, filter_isDue_preBlock,
        List.append_nil, h5]

/-- C3 counterexample: a store with one staff user holding a current-month
paid record 28 days old (daysUntilBlock = 2).  The scheduler batch sends
and counts an upcoming-block reminder; the administrative route performs no
pre-block check at all and sends nothing, and its response has no
pre-block count. -/
theorem c3_route_omits_preblock_counterexample :
    Notif.preBlock 1 ∈ (checkAndRemindPayments nowSep15 storeSep).2.2 ∧
    (checkAndRemindRoute nowSep15 storeSep).2.2 = [] ∧
    (checkAndRemindPayments nowSep15 storeSep).2.1.upcomingBlockRemindersSent = 1 := by
  refine ⟨?_, rfl, rfl⟩
  have h : (checkAndRemindPayments nowSep15 storeSep).2.2 = [Notif.preBlock 1] := rfl
  rw [h]
  exact List.mem_singleton.mpr rfl

/-- C3 amended: the administrative route performs the same per-user
create/reset evaluation as the daily scheduler — the resulting stores and
the remindersSent, paymentsCreated and paymentsUpdated counts agree (the
route additionally reports totalUsersChecked) — but it omits the pre-block
reminder check entirely: its notifications are exactly the scheduler's
with the pre-block reminders removed, and its response carries no
pre-block count. -/
theorem c3_route_sched_agreement :
    ∀ (now : JsDate) (st : Store),
      (checkAndRemindRoute now st).1 = (checkAndRemindPayments now st).1 ∧
      (checkAndRemindRoute now st).2.1.remindersSent =
        (checkAndRemindPayments now st).2.1.remindersSent ∧
      (checkAndRemindRoute now st).2.1.paymentsCreated =
        (checkAndRemindPayments now st).2.1.paymentsCreated ∧
      (checkAndRemindRoute now st).2.1.paymentsUpdated =
        (checkAndRemindPayments now st).2.1.paymentsUpdated ∧
      (checkAndRemindRoute now st).2.2 =
        (checkAndRemindPayments now st).2.2.filter Notif.isDue := by
  intro now st
  exact runUsers_route_sched_agree (oneMonthAgoTs now) (currentMonthKey now)
    (todayMidnight now) (approvedNonAdmins st) st

/-- C4 counterexample: PUT /api/payments/:id with status = late on a paid
record updates the status but leaves paid_at untouched — paid_at is cleared
only on a paid-to-unpaid transition — so immediately after this transition
out of paid the record has status late with a non-null paid_at, violating
the claimed iff. -/
theorem c4_late_transition_counterexample :
    putPayment storePaid 1 lateBody 5000 = Except.ok storeLate ∧
    ∃ r ∈ storeLate.payments, ¬(r.status = PayStatus.paid ↔ r.paid_at ≠ none) := by
  exact ⟨rfl, by decide⟩

theorem createPayment_ok_cases {st : Store} {body : PostBody} {ts : Int}
    {st' : Store} {b : Bool}
    (h : createPayment st body ts = Except.ok (st', b)) :
    (b = true ∧ ∃ e,
      existingCurrentPayment st body.user_id (firstOfMonth body.payment_month) =
        some e ∧
      st' = { st with payments := st.payments.map (fun r =>
        if r.id = e.id then postUpdatedRecord e body ts r else r) }) ∨
    (b = false ∧
      existingCurrentPayment st body.user_id (firstOfMonth body.payment_month) =
        none ∧
      st' = { st with
        payments := st.payments ++ [postInsertedRecord st body ts],
        nextId := st.nextId + 1 }) := by
  unfold createPayment at h
  split at h
  · cases h
  case h_2 u hfindu =>
    by_cases hrole : u.role = Role.admin
    · rw [if_pos hrole] at h; cases h
    · rw [if_neg hrole] at h
      cases hex : existingCurrentPayment st body.user_id
          (firstOfMonth body.payment_month) with
      | some e =>
          rw [hex] at h
          obtain ⟨h1, h2⟩ := (Prod.mk.injEq _ _ _ _).mp (Except.ok.inj h)
          exact Or.inl ⟨h2.symm, e, rfl, h1.symm⟩
      | none =>
          rw [hex] at h
          obtain ⟨h1, h2⟩ := (Prod.mk.injEq _ _ _ _).mp (Except.ok.inj h)
          exact Or.inr ⟨h2.symm, rfl, h1.symm⟩

/-- C10: POST /api/payments normalizes the supplied payment_month to the
first day of its month; when a record for (user_id, normalized month)
already exists it updates that record in place and reports an update (no
new row, ids and months preserved) instead of inserting a duplicate, so the
at-most-one-record-per-(user, month) invariant is preserved; and it refuses
to create payment records for admin users. -/
theorem c10_create_payment_properties :
    (∀ (st : Store) (body : PostBody) (ts : Int) (u : User),
      st.users.find? (fun v => decide (v.id = body.user_id)) = some u →
      u.role = Role.admin →
      createPayment st body ts = Except.error PostError.adminUser) ∧
    (∀ (st : Store) (body : PostBody) (ts : Int) (st' : Store),
      createPayment st body ts = Except.ok (st', false) →
      existingCurrentPayment st body.user_id (firstOfMonth body.payment_month) =
        none ∧
      st'.payments = st.payments ++ [postInsertedRecord st body ts] ∧
      (postInsertedRecord st body ts).payment_month =
        firstOfMonth body.payment_month) ∧
    (∀ (st : Store) (body : PostBody) (ts : Int) (st' : Store),
      createPayment st body ts = Except.ok (st', true) →
      (existingCurrentPayment st body.user_id
        (firstOfMonth body.payment_month)).isSome = true ∧
      st'.payments.length = st.payments.length ∧
      ∀ r' ∈ st'.payments, ∃ r ∈ st.payments,
        r'.id = r.id ∧ r'.user_id = r.user_id ∧
          r'.payment_month = r.payment_month) ∧
    (∀ (st : Store) (body : PostBody) (ts : Int) (st' : Store) (b : Bool),
      UniquePairs st → createPayment st body ts = Except.ok (st', b) →
      UniquePairs st') := by
  refine ⟨?_, ?_, ?_, ?_⟩
  · intro st body ts u hfind hrole
    unfold createPayment
    rw [hfind]
    simp [hrole]
  · intro st body ts st' h
    rcases createPayment_ok_cases h with ⟨hb, _⟩ | ⟨_, hex, hst'⟩
    · cases hb
    · subst hst'
      exact ⟨hex, rfl, rfl⟩
  · intro st body ts st' h
    rcases createPayment_ok_cases h with ⟨_, e, hex, hst'⟩ | ⟨hb, _⟩
    · subst hst'
      refine ⟨by rw [hex]; rfl, List.length_map _ _, ?_⟩
      intro r' hr'
      obtain ⟨x, hx, hfx⟩ := List.mem_map.mp hr'
      refine ⟨x, hx, ?_⟩
      by_cases hid : x.id = e.id
      · rw [if_pos hid] at hfx
        subst hfx
        exact ⟨rfl, rfl, rfl⟩
      · rw [if_neg hid] at hfx
        subst hfx
        exact ⟨rfl, rfl, rfl⟩
    · cases hb
  · intro st body ts st' b hpre h
    rcases createPayment_ok_cases h with ⟨_, e, hex, hst'⟩ | ⟨_, hex, hst'⟩
    · subst hst'
      unfold UniquePairs at hpre ⊢
      rw [List.pairwise_map]
      refine hpre.imp ?_
      intro a c hac
      by_cases ha : a.id = e.id <;> by_cases hc : c.id = e.id <;>
        simp [ha, hc, postUpdatedRecord] <;> intro h1 h2 <;>
        exact hac ⟨h1, h2⟩
    · subst hst'
      unfold UniquePairs at hpre ⊢
      rw [List.pairwise_append]
      refine ⟨hpre, List.pairwise_singleton _ _, ?_⟩
      intro a ha r hr
      have hrx := List.mem_singleton.mp hr
      subst hrx
      have hnone := List.find?_eq_none.mp hex a ha
      simp only [postInsertedRecord]
      intro hcon
      apply hnone
      simp [hcon.1, hcon.2]

/-- Witness for C10 at concrete stores: the admin refusal, the normalized
creation, the update-in-place and the uniqueness preservation. -/
theorem c10_create_payment_properties_witness :
    createPayment storeAdmin postBodyAdmin 0 = Except.error PostError.adminUser ∧
    (existingCurrentPayment storeThree postBodyNew.user_id
        (firstOfMonth postBodyNew.payment_month) = none ∧
      storeThreeAfterPost.payments =
        storeThree.payments ++ [postInsertedRecord storeThree postBodyNew 0] ∧
      (postInsertedRecord storeThree postBodyNew 0).payment_month =
        firstOfMonth postBodyNew.payment_month) ∧
    (existingCurrentPayment storePaid postBodyUpd.user_id
        (firstOfMonth postBodyUpd.payment_month)).isSome = true ∧
    storePaidUpd.payments.length = storePaid.payments.length ∧
    UniquePairs storeThreeAfterPost :=
  ⟨c10_create_payment_properties.1 storeAdmin postBodyAdmin 0 adminUser rfl rfl,
   c10_create_payment_properties.2.1 storeThree postBodyNew 0 storeThreeAfterPost rfl,
   (c10_create_payment_properties.2.2.1 storePaid postBodyUpd 0 storePaidUpd rfl).1,
   (c10_create_payment_properties.2.2.1 storePaid postBodyUpd 0 storePaidUpd rfl).2.1,
   c10_create_payment_properties.2.2.2 storeThree postBodyNew 0 storeThreeAfterPost
     false (by decide) rfl⟩

/-- C6: for a user with no payment records at all, one batch evaluation
creates exactly one new record — status unpaid, payment_month the first day
of the current month, amount 15000 — and flags the monthly-due reminder;
and the creation swallows a uniqueness violation on
(user_id, payment_month) as a no-op. -/
theorem c6_fresh_user_creation :
    (∀ (now : JsDate) (st : Store) (uid : Nat),
      (∀ r ∈ st.payments, r.user_id ≠ uid) →
      processUserRoute (oneMonthAgoTs now) (currentMonthKey now) st uid =
        ⟨{ st with
            payments := st.payments ++
              [⟨st.nextId, uid, 15000, currentMonthKey now,
                PayStatus.unpaid, none, none⟩],
            nextId := st.nextId + 1 }, 1, 0, true⟩) ∧
    (∀ (st : Store) (uid : Nat) (cm : MonthDate),
      (∃ r ∈ st.payments, r.user_id = uid ∧ r.payment_month = cm) →
      insertUnpaid st uid cm = (st, false)) := by
  constructor
  · intro now st uid hno
    have hrec : recentPaidPayment st uid (oneMonthAgoTs now) = none := by
      unfold recentPaidPayment
      have hfil : st.payments.filter (isFreshPaid (oneMonthAgoTs now) uid) = [] := by
        rw [List.filter_eq_nil_iff]
        intro a ha
        unfold isFreshPaid
        simp [hno a ha]
      rw [hfil]
      rfl
    have hex : existingCurrentPayment st uid (currentMonthKey now) = none := by
      unfold existingCurrentPayment
      rw [List.find?_eq_none]
      intro a ha
      simp [hno a ha]
    have hins : insertUnpaid st uid (currentMonthKey now) =
        ({ st with
            payments := st.payments ++
              [⟨st.nextId, uid, 15000, currentMonthKey now,
                PayStatus.unpaid, none, none⟩],
            nextId := st.nextId + 1 }, true) := by
      unfold insertUnpaid
      rw [if_neg]
      intro hany
      obtain ⟨a, ha, hpa⟩ := List.any_eq_true.mp hany
      simp only [Bool.and_eq_true, decide_eq_true_eq] at hpa
      exact hno a ha hpa.1
    unfold processUserRoute
    rw [hrec, hex, hins]
    rfl
  · intro st uid cm hx
    obtain ⟨r, hr, h1, h2⟩ := hx
    unfold insertUnpaid
    rw [if_pos]
    exact List.any_eq_true.mpr ⟨r, hr, by simp [h1, h2]⟩

/-- Witness for C6: the three-user store with no records, and the conflict
no-op at the September store. -/
theorem c6_fresh_user_creation_witness :
    (∀ r ∈ storeThree.payments, r.user_id ≠ 1) ∧
    processUserRoute (oneMonthAgoTs nowSep15) (currentMonthKey nowSep15)
        storeThree 1 =
      ⟨{ storeThree with
          payments := storeThree.payments ++
            [⟨storeThree.nextId, 1, 15000, currentMonthKey nowSep15,
              PayStatus.unpaid, none, none⟩],
          nextId := storeThree.nextId + 1 }, 1, 0, true⟩ ∧
    insertUnpaid storeSep 1 ⟨2026, 8, 1⟩ = (storeSep, false) :=
  ⟨by decide,
   c6_fresh_user_creation.1 nowSep15 storeThree 1 (by decide),
   c6_fresh_user_creation.2 storeSep 1 ⟨2026, 8, 1⟩ (by decide)⟩

theorem runUsersSched_notif_uids (oma : Int) (cm : MonthDate) (tm : Int) :
    ∀ (users : List User) (st : Store) (n : Notif),
      n ∈ (runUsersSched oma cm tm st users).2.2 →
      ∃ u ∈ users, n = Notif.due u.id ∨ n = Notif.preBlock u.id := by
  intro users
  induction users with
  | nil => intro st n h; cases h
  | cons u rest ih =>
      intro st n h
      simp only [runUsersSched] at h
      rcases List.mem_append.mp h with hl | hr
      · rcases List.mem_append.mp hl with h1 | h2
        · refine ⟨u, List.mem_cons_self u rest, ?_⟩
          split at h1
          · exact Or.inl (List.mem_singleton.mp h1)
          · cases h1
        · refine ⟨u, List.mem_cons_self u rest, ?_⟩
          split at h2
          · exact Or.inr (List.mem_singleton.mp h2)
          · cases h2
      · obtain ⟨v, hv, hn⟩ := ih _ n hr
        exact ⟨v, List.mem_cons_of_mem u hv, hn⟩

/-- C5: in a scheduler batch over a user u (whose id does not recur later in
the user list), the pre-block reminder for u is flagged exactly when u's
most recent ever-paid record r — read after u's own create/reset mutations —
yields daysUntilBlock = 2; the trigger is an exact match, so computed values
such as 1 or 3 do not flag it. -/
theorem c5_preblock_exact_trigger :
    ∀ (now : JsDate) (st : Store) (u : User) (rest : List User),
      u.id ∉ rest.map User.id →
      (Notif.preBlock u.id ∈
        (runUsersSched (oneMonthAgoTs now) (currentMonthKey now)
          (todayMidnight now) st (u :: rest)).2.2 ↔
      ∃ r, lastPaidAny (processUserSched (oneMonthAgoTs now) (currentMonthKey now)
            st u.id).store u.id = some r ∧
          daysUntilBlock (todayMidnight now) (paidAtVal r) = 2) := by
  intro now st u rest hnot
  constructor
  · intro hmem
    simp only [runUsersSched] at hmem
    rcases List.mem_append.mp hmem with hl | hr
    · rcases List.mem_append.mp hl with h1 | h2
      · exfalso
        split at h1
        · cases List.mem_singleton.mp h1
        · cases h1
      · have hpb : preBlockCheck
            (processUserSched (oneMonthAgoTs now) (currentMonthKey now) st u.id).store
            u.id (todayMidnight now) = true := by
          by_contra hc
          rw [Bool.not_eq_true] at hc
          rw [hc] at h2
          cases h2
        unfold preBlockCheck at hpb
        split at hpb
        case h_1 r hlast =>
          exact ⟨r, hlast, of_decide_eq_true hpb⟩
        case h_2 => cases hpb
    · exfalso
      obtain ⟨v, hv, hn⟩ := runUsersSched_notif_uids _ _ _ rest _ _ hr
      rcases hn with hn | hn
      · cases hn
      · have : u.id = v.id := Notif.preBlock.inj hn
        exact hnot (this ▸ List.mem_map_of_mem User.id hv)
  · intro hx
    obtain ⟨r, hlast, hd⟩ := hx
    have hpb : preBlockCheck
        (processUserSched (oneMonthAgoTs now) (currentMonthKey now) st u.id).store
        u.id (todayMidnight now) = true := by
      unfold preBlockCheck
      rw [hlast]
      exact decide_eq_true hd
    simp only [runUsersSched]
    apply List.mem_append_left
    apply List.mem_append_right
    rw [hpb]
    exact List.mem_singleton.mpr rfl

/-- Witness for C5 at the September store: the single user's pre-block
reminder iff daysUntilBlock = 2. -/
theorem c5_preblock_exact_trigger_witness :
    (staffUser 1).id ∉ List.map User.id [] ∧
    (Notif.preBlock (staffUser 1).id ∈
      (runUsersSched (oneMonthAgoTs nowSep15) (currentMonthKey nowSep15)
        (todayMidnight nowSep15) storeSep [staffUser 1]).2.2 ↔
    ∃ r, lastPaidAny (processUserSched (oneMonthAgoTs nowSep15)
          (currentMonthKey nowSep15) storeSep (staffUser 1).id).store
          (staffUser 1).id = some r ∧
        daysUntilBlock (todayMidnight nowSep15) (paidAtVal r) = 2) :=
  ⟨by simp,
   c5_preblock_exact_trigger nowSep15 storeSep (staffUser 1) [] (by simp)⟩

theorem existingCurrentPayment_some {st : Store} {uid : Nat} {cm : MonthDate}
    {r : PaymentRecord} (h : existingCurrentPayment st uid cm = some r) :
    r ∈ st.payments ∧ r.user_id = uid ∧ r.payment_month = cm := by
  have hmem := List.mem_of_find?_eq_some h
  have hp := List.find?_some h
  simp only [Bool.and_eq_true, decide_eq_true_eq] at hp
  exact ⟨hmem, hp.1, hp.2⟩

theorem insertUnpaid_of_existing_none {st : Store} {uid : Nat} {cm : MonthDate}
    (hex : existingCurrentPayment st uid cm = none) :
    insertUnpaid st uid cm =
      ({ st with
          payments := st.payments ++
            [⟨st.nextId, uid, 15000, cm, PayStatus.unpaid, none, none⟩],
          nextId := st.nextId + 1 }, true) := by
  unfold insertUnpaid
  rw [if_neg]
  intro hany
  obtain ⟨a, ha, hpa⟩ := List.any_eq_true.mp hany
  exact List.find?_eq_none.mp hex a ha hpa

theorem processUserRoute_cases (oma : Int) (cm : MonthDate) (st : Store) (uid : Nat) :
    ((processUserRoute oma cm st uid).store = st ∧
      (processUserRoute oma cm st uid).created = 0) ∨
    (∃ cur ∈ st.payments, cur.user_id = uid ∧ cur.status = PayStatus.paid ∧
      (cur.paid_at = none ∨ ∃ t, cur.paid_at = some t ∧ t < oma) ∧
      (processUserRoute oma cm st uid).store = resetToUnpaid st cur.id ∧
      (processUserRoute oma cm st uid).created = 0) ∨
    (existingCurrentPayment st uid cm = none ∧
      (recentPaidPayment st uid oma = none ∨
        ∃ lp, recentPaidPayment st uid oma = some lp ∧
          firstOfMonth lp.payment_month ≠ cm) ∧
      (processUserRoute oma cm st uid).store =
        { st with
          payments := st.payments ++
            [⟨st.nextId, uid, 15000, cm, PayStatus.unpaid, none, none⟩],
          nextId := st.nextId + 1 }) := by
  cases hrec : recentPaidPayment st uid oma with
  | none =>
      cases hex : existingCurrentPayment st uid cm with
      | some payment =>
          obtain ⟨hmem, huser, hmonth⟩ := existingCurrentPayment_some hex
          by_cases hps : payment.status = PayStatus.paid
          · cases hpa : payment.paid_at with
            | some t =>
                by_cases hlt : t < oma
                · refine Or.inr (Or.inl ⟨payment, hmem, huser, hps,
                    Or.inr ⟨t, hpa, hlt⟩, ?_, ?_⟩) <;>
                    simp [processUserRoute, hrec, hex, hps, hpa, hlt]
                · refine Or.inl ⟨?_, ?_⟩ <;>
                    simp [processUserRoute, hrec, hex, hps, hpa, hlt]
            | none =>
                refine Or.inl ⟨?_, ?_⟩ <;>
                  simp [processUserRoute, hrec, hex, hps, hpa]
          · refine Or.inl ⟨?_, ?_⟩ <;>
              simp [processUserRoute, hrec, hex, hps]
      | none =>
          refine Or.inr (Or.inr ⟨rfl, Or.inl rfl, ?_⟩)
          simp [processUserRoute, hrec, hex, insertUnpaid_of_existing_none hex]
  | some lastPaid =>
      by_cases hm : firstOfMonth lastPaid.payment_month ≠ cm
      · cases hex : existingCurrentPayment st uid cm with
        | some cur =>
            obtain ⟨hmem, huser, hmonth⟩ := existingCurrentPayment_some hex
            by_cases hps : cur.status = PayStatus.paid
            · cases hpa : cur.paid_at with
              | none =>
                  refine Or.inr (Or.inl ⟨cur, hmem, huser, hps, Or.inl hpa, ?_, ?_⟩) <;>
                    simp [processUserRoute, hrec, hex, hm, hps, hpa]
              | some t =>
                  by_cases hlt : t < oma
                  · refine Or.inr (Or.inl ⟨cur, hmem, huser, hps,
                      Or.inr ⟨t, hpa, hlt⟩, ?_, ?_⟩) <;>
                      simp [processUserRoute, hrec, hex, hm, hps, hpa, hlt]
                  · refine Or.inl ⟨?_, ?_⟩ <;>
                      simp [processUserRoute, hrec, hex, hm, hps, hpa, hlt]
            · refine Or.inl ⟨?_, ?_⟩ <;>
                by_cases hpu : cur.status = PayStatus.unpaid <;>
                  simp [processUserRoute, hrec, hex, hm, hps, hpu]
        | none =>
            refine Or.inr (Or.inr ⟨rfl, Or.inr ⟨lastPaid, rfl, hm⟩, ?_⟩)
            simp [processUserRoute, hrec, hex, hm, insertUnpaid_of_existing_none hex]
      · cases hpa : lastPaid.paid_at with
        | some t =>
            by_cases hlt : t < oma
            · exfalso
              have hfresh := (recentPaidPayment_mem_fresh hrec).2
              rw [isFreshPaid_iff] at hfresh
              obtain ⟨t', hpa', hle⟩ := hfresh.2.2
              rw [hpa] at hpa'
              cases hpa'
              exact absurd hlt (not_lt.mpr hle)
            · refine Or.inl ⟨?_, ?_⟩ <;>
                simp [processUserRoute, hrec, hm, hpa, hlt]
        | none =>
            refine Or.inl ⟨?_, ?_⟩ <;>
              simp [processUserRoute, hrec, hm, hpa]

theorem processUserRoute_store_trichotomy (oma : Int) (cm : MonthDate)
    (st : Store) (uid : Nat) :
    ∀ r ∈ (processUserRoute oma cm st uid).store.payments,
      r ∈ st.payments ∨ (∃ r₀ ∈ st.payments, r = resetFields r₀) ∨
      (r.status = PayStatus.unpaid ∧ r.paid_at = none) := by
  intro r hr
  rcases processUserRoute_cases oma cm st uid with
    ⟨hst, _⟩ | ⟨cur, hmem, _, _, _, hst, _⟩ | ⟨_, _, hst⟩
  · rw [hst] at hr
    exact Or.inl hr
  · rw [hst] at hr
    simp only [resetToUnpaid] at hr
    obtain ⟨x, hx, hfx⟩ := List.mem_map.mp hr
    by_cases hid : x.id = cur.id
    · rw [if_pos hid] at hfx
      exact Or.inr (Or.inl ⟨x, hx, hfx.symm⟩)
    · rw [if_neg hid] at hfx
      subst hfx
      exact Or.inl hx
  · rw [hst] at hr
    rcases List.mem_append.mp hr with h | h
    · exact Or.inl h
    · have hx := List.mem_singleton.mp h
      subst hx
      exact Or.inr (Or.inr ⟨rfl, rfl⟩)

theorem runUsersRoute_store_trichotomy (oma : Int) (cm : MonthDate) :
    ∀ (users : List User) (st : Store) (r : PaymentRecord),
      r ∈ (runUsersRoute oma cm st users).1.payments →
      r ∈ st.payments ∨ (∃ r₀ ∈ st.payments, r = resetFields r₀) ∨
      (r.status = PayStatus.unpaid ∧ r.paid_at = none) := by
  intro users
  induction users with
  | nil => intro st r hr; exact Or.inl hr
  | cons u rest ih =>
      intro st r hr
      simp only [runUsersRoute] at hr
      rcases ih (processUserRoute oma cm st u.id).store r hr with
        h | ⟨r₀, hr₀, heq⟩ | h
      · exact processUserRoute_store_trichotomy oma cm st u.id r h
      · rcases processUserRoute_store_trichotomy oma cm st u.id r₀ hr₀ with
          h' | ⟨r₁, hr₁, heq'⟩ | h'
        · exact Or.inr (Or.inl ⟨r₀, h', heq⟩)
        · exact Or.inr (Or.inl ⟨r₁, hr₁, heq.trans (by rw [heq']; rfl)⟩)
        · exact Or.inr (Or.inr (by rw [heq]; exact ⟨rfl, rfl⟩))
      · exact Or.inr (Or.inr h)

/-- C4 amended: immediately after any transition performed by the batch
evaluator the full iff holds — every record the evaluator mutates is
written as {status unpaid, paid_at null}, so status paid iff paid_at
non-null; after any administrative update (PUT /api/payments/:id) or
create (POST /api/payments), every record with status paid has a non-null
paid_at (paid_at is set on every transition into paid), but there the
converse fails because an administrative transition from paid to late
retains paid_at. -/
theorem c4_paid_implies_paid_at_preserved :
    (∀ (st : Store) (pid : Nat) (body : PutBody) (ts : Int) (st' : Store),
      PaidHasPaidAt st → putPayment st pid body ts = Except.ok st' →
      PaidHasPaidAt st') ∧
    (∀ (st : Store) (body : PostBody) (ts : Int) (st' : Store) (b : Bool),
      PaidHasPaidAt st → createPayment st body ts = Except.ok (st', b) →
      PaidHasPaidAt st') ∧
    (∀ (now : JsDate) (st : Store) (r : PaymentRecord),
      (r ∈ (checkAndRemindPayments now st).1.payments ∨
        r ∈ (checkAndRemindRoute now st).1.payments) →
      r ∉ st.payments →
      (r.status = PayStatus.paid ↔ r.paid_at ≠ none)) := by
  refine ⟨?_, ?_, ?_⟩
  · intro st pid body ts st' hpre h
    unfold putPayment at h
    split at h
    · cases h
    case h_2 cur hfind =>
      have hcurmem : cur ∈ st.payments := List.mem_of_find?_eq_some hfind
      split at h
      · cases h
      · split at h
        · cases h
        · have hst' :
              { st with payments := st.payments.map (fun r =>
                if r.id = pid then putUpdatedRecord cur body ts r else r) } = st' :=
            Except.ok.inj h
          subst hst'
          intro r hr hpaid
          obtain ⟨x, hx, hfx⟩ := List.mem_map.mp hr
          by_cases hid : x.id = pid
          · rw [if_pos hid] at hfx
            subst hfx
            simp only [putUpdatedRecord] at hpaid ⊢
            unfold putNewPaidAt
            rcases hbs : body.status with _ | s
            · simp only [hbs, Option.getD_none] at hpaid
              simp only [hbs, reduceCtorEq, false_and, if_false]
              exact hpre cur hcurmem hpaid
            · cases s with
              | unpaid => rw [hbs] at hpaid; simp at hpaid
              | late => rw [hbs] at hpaid; simp at hpaid
              | paid =>
                  by_cases hcs : cur.status = PayStatus.paid
                  · simp only [hbs, hcs, ne_eq, not_true_eq_false, and_false,
                      if_false, Option.some.injEq, reduceCtorEq, false_and]
                    exact hpre cur hcurmem hcs
                  · simp [hbs, hcs]
          · rw [if_neg hid] at hfx
            subst hfx
            exact hpre x hx hpaid
  · intro st body ts st' b hpre h
    unfold createPayment at h
    split at h
    · cases h
    case h_2 u hfindu =>
      by_cases hrole : u.role = Role.admin
      · rw [if_pos hrole] at h; cases h
      · rw [if_neg hrole] at h
        cases hex : existingCurrentPayment st body.user_id
            (firstOfMonth body.payment_month) with
        | some existingPayment =>
            rw [hex] at h
            have hexmem : existingPayment ∈ st.payments :=
              List.mem_of_find?_eq_some hex
            obtain ⟨hst'1, _⟩ := (Prod.mk.injEq _ _ _ _).mp (Except.ok.inj h)
            subst hst'1
            intro r hr hpaid
            obtain ⟨x, hx, hfx⟩ := List.mem_map.mp hr
            by_cases hid : x.id = existingPayment.id
            · rw [if_pos hid] at hfx
              subst hfx
              simp only [postUpdatedRecord] at hpaid ⊢
              unfold postNewPaidAt
              rcases hbs : body.status with _ | s
              · simp only [hbs, Option.getD_none] at hpaid
                simp only [hbs, reduceCtorEq, if_false]
                exact hpre existingPayment hexmem hpaid
              · cases s with
                | unpaid => rw [hbs] at hpaid; simp at hpaid
                | late => rw [hbs] at hpaid; simp at hpaid
                | paid => simp [hbs]
            · rw [if_neg hid] at hfx
              subst hfx
              exact hpre x hx hpaid
        | none =>
            rw [hex] at h
            obtain ⟨hst'1, _⟩ := (Prod.mk.injEq _ _ _ _).mp (Except.ok.inj h)
            subst hst'1
            intro r hr hpaid
            rcases List.mem_append.mp hr with hold | hnew
            · exact hpre r hold hpaid
            · have hrx := List.mem_singleton.mp hnew
              subst hrx
              simp only [postInsertedRecord] at hpaid ⊢
              rcases hbs : body.status with _ | s
              · rw [hbs] at hpaid; simp at hpaid
              · cases s with
                | unpaid => rw [hbs] at hpaid; simp at hpaid
                | late => rw [hbs] at hpaid; simp at hpaid
                | paid => simp [hbs]
  · intro now st r hr hnot
    have htri : r ∈ st.payments ∨ (∃ r₀ ∈ st.payments, r = resetFields r₀) ∨
        (r.status = PayStatus.unpaid ∧ r.paid_at = none) := by
      have hstores : (checkAndRemindRoute now st).1 =
          (checkAndRemindPayments now st).1 :=
        (runUsers_route_sched_agree (oneMonthAgoTs now) (currentMonthKey now)
          (todayMidnight now) (approvedNonAdmins st) st).1
      rcases hr with h | h
      · rw [← hstores] at h
        exact runUsersRoute_store_trichotomy _ _ (approvedNonAdmins st) st r h
      · exact runUsersRoute_store_trichotomy _ _ (approvedNonAdmins st) st r h
    rcases htri with h | ⟨r₀, _, heq⟩ | ⟨h1, h2⟩
    · exact absurd h hnot
    · subst heq
      simp [resetFields]
    · constructor
      · intro hp
        rw [h1] at hp
        cases hp
      · intro hne
        exact absurd h2 hne

/-- Witness for the amended C4: the late transition of the counterexample
store preserves the paid-implies-paid_at direction, and the record the
evaluator creates for user 1 over the empty-record store satisfies the
full iff. -/
theorem c4_paid_implies_paid_at_witness :
    (PaidHasPaidAt storePaid ∧ PaidHasPaidAt storeLate) ∧
    ((⟨1, 1, 15000, ⟨2026, 8, 1⟩, PayStatus.unpaid, none, none⟩ :
        PaymentRecord).status = PayStatus.paid ↔
      (⟨1, 1, 15000, ⟨2026, 8, 1⟩, PayStatus.unpaid, none, none⟩ :
        PaymentRecord).paid_at ≠ none) :=
  ⟨⟨by decide,
    c4_paid_implies_paid_at_preserved.1 storePaid 1 lateBody 5000 storeLate
      (by decide) rfl⟩,
   c4_paid_implies_paid_at_preserved.2.2 nowSep15 storeThree
     ⟨1, 1, 15000, ⟨2026, 8, 1⟩, PayStatus.unpaid, none, none⟩
     (Or.inl (by decide)) (by decide)⟩

/-- C9: the batch evaluator (both the scheduler and the administrative
batch route) never moves a record into status paid: every record of the
resulting store is an untouched input record, an input record reset to
{status unpaid, paid_at null}, or a freshly created unpaid record with null
paid_at; consequently any paid record in the output already existed,
unchanged, in the input. -/
theorem c9_batch_never_marks_paid :
    ∀ (now : JsDate) (st : Store) (r : PaymentRecord),
      (r ∈ (checkAndRemindPayments now st).1.payments ∨
        r ∈ (checkAndRemindRoute now st).1.payments) →
      (r ∈ st.payments ∨ (∃ r₀ ∈ st.payments, r = resetFields r₀) ∨
        (r.status = PayStatus.unpaid ∧ r.paid_at = none)) ∧
      (r.status = PayStatus.paid → r ∈ st.payments) := by
  intro now st r hr
  have htri : r ∈ st.payments ∨ (∃ r₀ ∈ st.payments, r = resetFields r₀) ∨
      (r.status = PayStatus.unpaid ∧ r.paid_at = none) := by
    have hstores : (checkAndRemindRoute now st).1 = (checkAndRemindPayments now st).1 :=
      (runUsers_route_sched_agree (oneMonthAgoTs now) (currentMonthKey now)
        (todayMidnight now) (approvedNonAdmins st) st).1
    rcases hr with h | h
    · rw [← hstores] at h
      exact runUsersRoute_store_trichotomy _ _ (approvedNonAdmins st) st r h
    · exact runUsersRoute_store_trichotomy _ _ (approvedNonAdmins st) st r h
  refine ⟨htri, ?_⟩
  intro hpaid
  rcases htri with h | ⟨r₀, _, heq⟩ | h
  · exact h
  · rw [heq] at hpaid
    cases hpaid
  · rw [h.1] at hpaid
    cases hpaid

/-- Witness for C9: the record created for user 1 by the batch over the
empty-record store is a fresh unpaid record. -/
theorem c9_batch_never_marks_paid_witness :
    (⟨1, 1, 15000, ⟨2026, 8, 1⟩, PayStatus.unpaid, none, none⟩ : PaymentRecord) ∈
      (checkAndRemindPayments nowSep15 storeThree).1.payments ∧
    ((⟨1, 1, 15000, ⟨2026, 8, 1⟩, PayStatus.unpaid, none, none⟩ : PaymentRecord) ∈
        storeThree.payments ∨
      (∃ r₀ ∈ storeThree.payments,
        (⟨1, 1, 15000, ⟨2026, 8, 1⟩, PayStatus.unpaid, none, none⟩ : PaymentRecord) =
          resetFields r₀) ∨
      ((⟨1, 1, 15000, ⟨2026, 8, 1⟩, PayStatus.unpaid, none, none⟩ :
          PaymentRecord).status = PayStatus.unpaid ∧
        (⟨1, 1, 15000, ⟨2026, 8, 1⟩, PayStatus.unpaid, none, none⟩ :
          PaymentRecord).paid_at = none)) :=
  ⟨by decide,
   (c9_batch_never_marks_paid nowSep15 storeThree
     ⟨1, 1, 15000, ⟨2026, 8, 1⟩, PayStatus.unpaid, none, none⟩
     (Or.inl (by decide))).1⟩

theorem wf_id_inj {st : Store} (hwf : WellFormed st) {x y : PaymentRecord}
    (hx : x ∈ st.payments) (hy : y ∈ st.payments) (hid : x.id = y.id) : x = y :=
  List.inj_on_of_nodup_map hwf.1 hx hy hid

theorem resetToUnpaid_map_id (st : Store) (rid : Nat) :
    (resetToUnpaid st rid).payments.map PaymentRecord.id =
      st.payments.map PaymentRecord.id := by
  simp only [resetToUnpaid, List.map_map]
  apply List.map_congr_left
  intro x _
  by_cases h : x.id = rid <;> simp [h]

theorem resetToUnpaid_wellFormed {st : Store} (hwf : WellFormed st) (rid : Nat) :
    WellFormed (resetToUnpaid st rid) := by
  constructor
  · rw [resetToUnpaid_map_id]
    exact hwf.1
  · intro r hr
    simp only [resetToUnpaid] at hr
    obtain ⟨x, hx, hfx⟩ := List.mem_map.mp hr
    have hlt := hwf.2 x hx
    by_cases h : x.id = rid
    · rw [if_pos h] at hfx
      subst hfx
      exact hlt
    · rw [if_neg h] at hfx
      subst hfx
      exact hlt

theorem insert_wellFormed {st : Store} (hwf : WellFormed st) (uid : Nat)
    (cm : MonthDate) :
    WellFormed { st with
      payments := st.payments ++
        [⟨st.nextId, uid, 15000, cm, PayStatus.unpaid, none, none⟩],
      nextId := st.nextId + 1 } := by
  constructor
  · rw [List.map_append, List.nodup_append]
    refine ⟨hwf.1, List.nodup_singleton _, ?_⟩
    intro a ha hb
    have hb' : a = st.nextId := by simpa using hb
    obtain ⟨x, hx, hxa⟩ := List.mem_map.mp ha
    have := hwf.2 x hx
    omega
  · intro r hr
    rcases List.mem_append.mp hr with h | h
    · have := hwf.2 r h
      show r.id < st.nextId + 1
      omega
    · have hx := List.mem_singleton.mp h
      subst hx
      show st.nextId < st.nextId + 1
      omega

theorem processUserRoute_wellFormed {oma : Int} {cm : MonthDate} {st : Store}
    {uid : Nat} (hwf : WellFormed st) :
    WellFormed (processUserRoute oma cm st uid).store := by
  rcases processUserRoute_cases oma cm st uid with
    ⟨hst, _⟩ | ⟨cur, _, _, _, _, hst, _⟩ | ⟨_, _, hst⟩
  · rw [hst]; exact hwf
  · rw [hst]; exact resetToUnpaid_wellFormed hwf cur.id
  · rw [hst]; exact insert_wellFormed hwf uid cm

theorem processUserRoute_users {oma : Int} {cm : MonthDate} {st : Store}
    {uid : Nat} : (processUserRoute oma cm st uid).store.users = st.users := by
  rcases processUserRoute_cases oma cm st uid with
    ⟨hst, _⟩ | ⟨cur, _, _, _, _, hst, _⟩ | ⟨_, _, hst⟩
  · rw [hst]
  · rw [hst]; rfl
  · rw [hst]

theorem filter_map_stable {l : List PaymentRecord} {p : PaymentRecord → Bool}
    {f : PaymentRecord → PaymentRecord}
    (h : ∀ x ∈ l, (p x = true → f x = x) ∧ (p x = false → p (f x) = false)) :
    (l.map f).filter p = l.filter p := by
  induction l with
  | nil => rfl
  | cons a t ih =>
      have ha := h a (List.mem_cons_self a t)
      have ht := fun x hx => h x (List.mem_cons_of_mem a hx)
      rw [List.map_cons]
      cases hp : p a with
      | true =>
          rw [List.filter_cons_of_pos, List.filter_cons_of_pos]
          · rw [ha.1 hp, ih ht]
          · exact hp
          · rw [ha.1 hp]; exact hp
      | false =>
          rw [List.filter_cons_of_neg, List.filter_cons_of_neg]
          · exact ih ht
          · simp [hp]
          · simp [ha.2 hp]

theorem recentPaidPayment_eq_fresh (st : Store) (uid : Nat) (oma : Int) :
    recentPaidPayment st uid oma = maxByPaidAt (FreshList oma uid st) := rfl

theorem freshList_reset {st : Store} {cur : PaymentRecord} {oma : Int}
    (hwf : WellFormed st) (hmem : cur ∈ st.payments)
    (hnotfresh : ∀ v, isFreshPaid oma v cur = false) (v : Nat) :
    FreshList oma v (resetToUnpaid st cur.id) = FreshList oma v st := by
  unfold FreshList resetToUnpaid
  apply filter_map_stable
  intro x hx
  constructor
  · intro hpx
    by_cases hid : x.id = cur.id
    · have hxc : x = cur := wf_id_inj hwf hx hmem hid
      subst hxc
      rw [hnotfresh v] at hpx
      cases hpx
    · rw [if_neg hid]
  · intro _
    by_cases hid : x.id = cur.id
    · rw [if_pos hid]
      simp [isFreshPaid]
    · rw [if_neg hid]
      assumption

theorem freshList_insert (st : Store) (uid : Nat) (cm : MonthDate) (oma : Int)
    (v : Nat) :
    FreshList oma v { st with
      payments := st.payments ++
        [⟨st.nextId, uid, 15000, cm, PayStatus.unpaid, none, none⟩],
      nextId := st.nextId + 1 } = FreshList oma v st := by
  unfold FreshList
  rw [List.filter_append]
  have : List.filter (isFreshPaid oma v)
      [⟨st.nextId, uid, 15000, cm, PayStatus.unpaid, none, none⟩] = [] := by
    simp [isFreshPaid]
  rw [this, List.append_nil]

theorem processUserRoute_freshList {oma : Int} {cm : MonthDate} {st : Store}
    {uid : Nat} (hwf : WellFormed st) (v : Nat) :
    FreshList oma v (processUserRoute oma cm st uid).store = FreshList oma v st := by
  rcases processUserRoute_cases oma cm st uid with
    ⟨hst, _⟩ | ⟨cur, hmem, _, hps, hpa, hst, _⟩ | ⟨_, _, hst⟩
  · rw [hst]
  · rw [hst]
    apply freshList_reset hwf hmem
    intro w
    rcases hpa with hnone | ⟨t, hsome, hlt⟩
    · simp [isFreshPaid, hnone]
    · simp [isFreshPaid, hsome, not_le.mpr hlt]
  · rw [hst]
    exact freshList_insert st uid cm oma v

theorem processUserRoute_recent {oma : Int} {cm : MonthDate} {st : Store}
    {uid : Nat} (hwf : WellFormed st) (v : Nat) :
    recentPaidPayment (processUserRoute oma cm st uid).store v oma =
      recentPaidPayment st v oma := by
  rw [recentPaidPayment_eq_fresh, recentPaidPayment_eq_fresh,
    processUserRoute_freshList hwf v]

theorem processUserRoute_hasCurrent_mono {oma : Int} {cm : MonthDate} {st : Store}
    {uid v : Nat} (h : HasCurrent cm st v) :
    HasCurrent cm (processUserRoute oma cm st uid).store v := by
  obtain ⟨r, hr, hu, hm⟩ := h
  rcases processUserRoute_cases oma cm st uid with
    ⟨hst, _⟩ | ⟨cur, _, _, _, _, hst, _⟩ | ⟨_, _, hst⟩
  · rw [hst]; exact ⟨r, hr, hu, hm⟩
  · rw [hst]
    refine ⟨if r.id = cur.id then
      { r with status := PayStatus.unpaid, paid_at := none } else r, ?_, ?_, ?_⟩
    · simp only [resetToUnpaid]
      exact List.mem_map.mpr ⟨r, hr, by split <;> rfl⟩
    · split <;> exact hu
    · split <;> exact hm
  · rw [hst]
    exact ⟨r, List.mem_append_left _ hr, hu, hm⟩

theorem processUserRoute_good_mono {oma : Int} {cm : MonthDate} {st : Store}
    {uid v : Nat} (hwf : WellFormed st) (h : GoodUser oma cm st v) :
    GoodUser oma cm (processUserRoute oma cm st uid).store v := by
  rcases h with h | ⟨r, hrec, hm⟩
  · exact Or.inl (processUserRoute_hasCurrent_mono h)
  · exact Or.inr ⟨r, by rw [processUserRoute_recent hwf v]; exact hrec, hm⟩

theorem processUserRoute_good_self {oma : Int} {cm : MonthDate} {st : Store}
    {uid : Nat} (hwf : WellFormed st) :
    GoodUser oma cm (processUserRoute oma cm st uid).store uid := by
  rcases hrec : recentPaidPayment st uid oma with _ | lastPaid
  · rcases hex : existingCurrentPayment st uid cm with _ | payment
    · have hst : (processUserRoute oma cm st uid).store =
          { st with
            payments := st.payments ++
              [⟨st.nextId, uid, 15000, cm, PayStatus.unpaid, none, none⟩],
            nextId := st.nextId + 1 } := by
        simp [processUserRoute, hrec, hex, insertUnpaid_of_existing_none hex]
      rw [hst]
      exact Or.inl ⟨⟨st.nextId, uid, 15000, cm, PayStatus.unpaid, none, none⟩,
        List.mem_append_right _ (List.mem_singleton.mpr rfl), rfl, rfl⟩
    · obtain ⟨hm2, hu2, hmo2⟩ := existingCurrentPayment_some hex
      exact Or.inl (processUserRoute_hasCurrent_mono ⟨payment, hm2, hu2, hmo2⟩)
  · by_cases hmeq : firstOfMonth lastPaid.payment_month = cm
    · refine Or.inr ⟨lastPaid, ?_, hmeq⟩
      rw [processUserRoute_recent hwf uid]
      exact hrec
    · rcases hex : existingCurrentPayment st uid cm with _ | payment
      · have hst : (processUserRoute oma cm st uid).store =
            { st with
              payments := st.payments ++
                [⟨st.nextId, uid, 15000, cm, PayStatus.unpaid, none, none⟩],
              nextId := st.nextId + 1 } := by
          simp [processUserRoute, hrec, hex, hmeq, insertUnpaid_of_existing_none hex]
        rw [hst]
        exact Or.inl ⟨⟨st.nextId, uid, 15000, cm, PayStatus.unpaid, none, none⟩,
          List.mem_append_right _ (List.mem_singleton.mpr rfl), rfl, rfl⟩
      · obtain ⟨hm2, hu2, hmo2⟩ := existingCurrentPayment_some hex
        exact Or.inl (processUserRoute_hasCurrent_mono ⟨payment, hm2, hu2, hmo2⟩)

theorem processUserRoute_created_zero {oma : Int} {cm : MonthDate} {st : Store}
    {uid : Nat} (hgood : GoodUser oma cm st uid) :
    (processUserRoute oma cm st uid).created = 0 := by
  rcases processUserRoute_cases oma cm st uid with
    ⟨_, hc⟩ | ⟨_, _, _, _, _, _, hc⟩ | ⟨hex, hbr, _⟩
  · exact hc
  · exact hc
  · exfalso
    rcases hgood with ⟨r, hr, hu, hm⟩ | ⟨r, hrec, hm⟩
    · exact List.find?_eq_none.mp hex r hr (by simp [hu, hm])
    · rcases hbr with hnone | ⟨lp, hlp, hne⟩
      · rw [hrec] at hnone; cases hnone
      · rw [hrec] at hlp
        have hrl := Option.some.inj hlp
        subst hrl
        exact hne hm

theorem runUsersRoute_wellFormed (oma : Int) (cm : MonthDate) :
    ∀ (users : List User) (st : Store), WellFormed st →
      WellFormed (runUsersRoute oma cm st users).1 := by
  intro users
  induction users with
  | nil => intro st h; exact h
  | cons u rest ih =>
      intro st h
      simp only [runUsersRoute]
      exact ih _ (processUserRoute_wellFormed h)

theorem runUsersRoute_users_eq (oma : Int) (cm : MonthDate) :
    ∀ (users : List User) (st : Store),
      (runUsersRoute oma cm st users).1.users = st.users := by
  intro users
  induction users with
  | nil => intro st; rfl
  | cons u rest ih =>
      intro st
      simp only [runUsersRoute]
      rw [ih, processUserRoute_users]

theorem runUsersRoute_good_mono (oma : Int) (cm : MonthDate) :
    ∀ (users : List User) (st : Store) (v : Nat), WellFormed st →
      GoodUser oma cm st v → GoodUser oma cm (runUsersRoute oma cm st users).1 v := by
  intro users
  induction users with
  | nil => intro st v _ h; exact h
  | cons u rest ih =>
      intro st v hwf h
      simp only [runUsersRoute]
      exact ih _ v (processUserRoute_wellFormed hwf)
        (processUserRoute_good_mono hwf h)

theorem runUsersRoute_good_all (oma : Int) (cm : MonthDate) :
    ∀ (users : List User) (st : Store), WellFormed st →
      ∀ u ∈ users, GoodUser oma cm (runUsersRoute oma cm st users).1 u.id := by
  intro users
  induction users with
  | nil => intro st _ u hu; cases hu
  | cons u rest ih =>
      intro st hwf v hv
      simp only [runUsersRoute]
      rcases List.mem_cons.mp hv with rfl | hv'
      · exact runUsersRoute_good_mono oma cm rest _ v.id
          (processUserRoute_wellFormed hwf) (processUserRoute_good_self hwf)
      · exact ih _ (processUserRoute_wellFormed hwf) v hv'

theorem runUsersRoute_created_zero (oma : Int) (cm : MonthDate) :
    ∀ (users : List User) (st : Store), WellFormed st →
      (∀ u ∈ users, GoodUser oma cm st u.id) →
      (runUsersRoute oma cm st users).2.1.paymentsCreated = 0 := by
  intro users
  induction users with
  | nil => intro st _ _; rfl
  | cons u rest ih =>
      intro st hwf hall
      have h1 : (processUserRoute oma cm st u.id).created = 0 :=
        processUserRoute_created_zero (hall u (List.mem_cons_self u rest))
      have h2 : (runUsersRoute oma cm (processUserRoute oma cm st u.id).store
          rest).2.1.paymentsCreated = 0 :=
        ih _ (processUserRoute_wellFormed hwf)
          (fun v hv => processUserRoute_good_mono hwf
            (hall v (List.mem_cons_of_mem u hv)))
      simp only [runUsersRoute]
      rw [h1, h2]

/-- C8: over any well-formed store (distinct SERIAL payment ids), running
the administrative batch twice in immediate succession at the same time
with no intervening payment activity creates zero payment records on the
second run: the first run leaves every processed user either with a
current-month record or in the same-month branch that never creates. -/
theorem c8_second_run_creates_nothing :
    ∀ (now : JsDate) (st : Store), WellFormed st →
      (checkAndRemindRoute now (checkAndRemindRoute now st).1).2.1.paymentsCreated = 0 := by
  intro now st hwf
  unfold checkAndRemindRoute
  have husers : approvedNonAdmins (runUsersRoute (oneMonthAgoTs now)
      (currentMonthKey now) st (approvedNonAdmins st)).1 = approvedNonAdmins st := by
    unfold approvedNonAdmins
    rw [runUsersRoute_users_eq]
  rw [husers]
  exact runUsersRoute_created_zero _ _ (approvedNonAdmins st) _
    (runUsersRoute_wellFormed _ _ (approvedNonAdmins st) st hwf)
    (fun u hu => runUsersRoute_good_all _ _ (approvedNonAdmins st) st hwf u hu)

/-- Witness for C8 at the September store. -/
theorem c8_second_run_creates_nothing_witness :
    WellFormed storeSep ∧
    (checkAndRemindRoute nowSep15
      (checkAndRemindRoute nowSep15 storeSep).1).2.1.paymentsCreated = 0 :=
  ⟨by decide, c8_second_run_creates_nothing nowSep15 storeSep (by decide)⟩

end SPEMS
